import Mathlib

/-!
Verification development for `run_multidimensional_clusters.py`.

The script loads a numeric vote matrix from a user-supplied python file,
projects it to 2 dimensions with PCA, sweeps k-means + silhouette scoring
over k = 2..9 on both the raw matrix and the projection, selects the k with
the highest score for each representation (`np.argmax`, first occurrence),
re-runs k-means at the chosen k, and reports descending cluster sizes.

The script's own logic (argument parsing, the sweep loop, `np.argmax`
selection, `np.bincount` + `sorted(-, reverse=True)` reporting, and the
module-attribute loader) is embedded directly.  The numeric library
collaborators (k-means, euclidean distances, the PCA numeric core, module
execution) are opaque external components; they are modelled as explicit
function parameters, which is faithful because every one of them is invoked
with a fixed random seed (`random_state=42`) and is deterministic given its
arguments.  Silhouette scoring is embedded from its standard definition
(the one the library documents and computes), over exact rationals standing
for the library's floating-point values.  Failure of a collaborator is
modelled by `Except`, mirroring an uncaught python exception.
-/

/-- A vote matrix / projection: rows of rationals (float values are rationals). -/
abbrev Mat := List (List ℚ)

/-- Number of columns of a matrix (length of its first row). -/
def nCols (X : Mat) : Nat := (X.headD []).length

/-- A matrix is rectangular when every row has the same length. -/
def Rectangular (X : Mat) : Prop := ∀ row ∈ X, row.length = nCols X

/-- The fixed k-means seed: `random_state=42` in the source. -/
def RANDOM_STATE : Nat := 42

/-- The swept candidate cluster counts: `k_values = range(2, 10)`. -/
def kValues : List Nat := List.range' 2 8

/-- Maximum of a list of rationals (0 for the empty list, which never occurs:
`np.argmax` is only applied to the 8 collected scores). -/
def listMax : List ℚ → ℚ
  | [] => 0
  | x :: xs => xs.foldl max x

/-- Embedding of `np.argmax`: index of the first occurrence of the maximum. -/
def npArgmax (l : List ℚ) : Nat := l.findIdx (fun x => decide (x = listMax l))

/-- Embedding of `k_values[np.argmax(scores)]` (lines 60-61 of the source). -/
def selectOptimalK (scores : List ℚ) : Nat := kValues.getD (npArgmax scores) 0

-- Basic facts about `listMax`.

/-- Mean of a list of rationals (0 for the empty list, matching the
convention `0/0 = 0` of rational division). -/
def meanQ (l : List ℚ) : ℚ := l.sum / l.length

/-- Cluster label of sample `i`. -/
def clusterOf (labels : List Nat) (i : Nat) : Nat := labels.getD i 0

/-- Indices of the samples carrying label `c`. -/
def membersOf (labels : List Nat) (c : Nat) : List Nat :=
  (List.range labels.length).filter (fun j => decide (labels.getD j 0 = c))

/-- Mean intra-cluster distance `a(i)`. -/
def silA (d : Nat → Nat → ℚ) (labels : List Nat) (i : Nat) : ℚ :=
  meanQ (((membersOf labels (clusterOf labels i)).filter (fun j => decide (j ≠ i))).map
    (fun j => d i j))

/-- Minimum of a list of rationals, 0 for the empty list (the empty case only
arises when all samples share one label, which the library rejects earlier). -/
def minOrDefault : List ℚ → ℚ
  | [] => 0
  | x :: xs => xs.foldl min x

/-- Minimum mean distance to another cluster, `b(i)`. -/
def silB (d : Nat → Nat → ℚ) (labels : List Nat) (i : Nat) : ℚ :=
  minOrDefault ((labels.dedup.filter (fun c => decide (c ≠ clusterOf labels i))).map
    (fun c => meanQ ((membersOf labels c).map (fun j => d i j))))

/-- Per-sample silhouette value `s(i)`. -/
def silhouetteSample (d : Nat → Nat → ℚ) (labels : List Nat) (i : Nat) : ℚ :=
  if (membersOf labels (clusterOf labels i)).length ≤ 1 then 0
  else (silB d labels i - silA d labels i) / max (silA d labels i) (silB d labels i)

/-- Silhouette score of a labelling: mean of the per-sample values. -/
def silhouetteScore (d : Nat → Nat → ℚ) (labels : List Nat) : ℚ :=
  meanQ ((List.range labels.length).map (fun i => silhouetteSample d labels i))

/-- Embedding of `np.bincount`: entry `i` counts the occurrences of label `i`;
the result has length `max(labels) + 1` (and is empty for an empty input). -/
def bincount (labels : List Nat) : List Nat :=
  match labels with
  | [] => []
  | _ :: _ => (List.range (labels.foldr max 0 + 1)).map (fun i => labels.count i)

/-- Embedding of `sorted(sizes, reverse=True)`. -/
def sortDescending (l : List Nat) : List Nat := l.insertionSort (· ≥ ·)

/-- Embedding of the report loop `for i, size in enumerate(sorted(...))`:
pairs each size with its 1-based rank. -/
def reportSizes (l : List Nat) : List (Nat × Nat) :=
  (sortDescending l).enum.map (fun p => (p.1 + 1, p.2))

instance : IsTotal ℕ (· ≥ ·) := ⟨fun a b => le_total b a⟩

instance : IsTrans ℕ (· ≥ ·) := ⟨fun _ _ _ h h' => le_trans h' h⟩

/-- The error kinds that can abort a run after argument parsing. -/
inductive ProgError where
  | loadError
  | dimensionalityError
  | clusteringError
  deriving DecidableEq, Repr

/-- External collaborators of the script.  `execMod` models
`importlib` module execution (a file yields an attribute environment, or
fails); `kmLabels seed data k` models `KMeans(n_clusters=k,
random_state=seed).fit_predict(data)`; `dist data i j` models the euclidean
float distance between rows `i` and `j` used by `silhouette_score`;
`pcaCore` models the numeric core of `PCA(n_components=2).fit_transform`
on inputs satisfying its precondition. -/
structure CollabE where
  execMod : String → Option (String → Option Mat)
  kmLabels : Nat → Mat → Nat → List Nat
  dist : Mat → Nat → Nat → ℚ
  pcaCore : Mat → Mat

/-- Embedding of `load_vote_matrix` (lines 17-21): execute the file as a
module and read the attribute named exactly `voteMatrix`; a missing module
or missing attribute is an uncaught error. -/
def loadVoteMatrix (execMod : String → Option (String → Option Mat)) (path : String) :
    Except ProgError Mat :=
  match execMod path with
  | none => .error .loadError
  | some env =>
    match env "voteMatrix" with
    | none => .error .loadError
    | some vm => .ok vm

/-- Embedding of `PCA(n_components=2).fit_transform` (lines 36-37): the
library raises `ValueError` iff `n_components = 2 > min(n_samples,
n_features)`; otherwise the deterministic numeric core runs. -/
def pcaTransform (core : Mat → Mat) (X : Mat) : Except ProgError Mat :=
  if 2 ≤ min X.length (nCols X) then .ok (core X) else .error .dimensionalityError

/-- Number of distinct labels in a labelling (`n_labels` in the library's
silhouette precondition). -/
def nLabels (labels : List Nat) : Nat := labels.dedup.length

/-- Embedding of `kmeans_silhouette` (lines 11-15) with the library failure
contract: `KMeans.fit` raises when `n_samples < n_clusters`, and
`silhouette_score` raises unless `1 < n_labels < n_samples`, where
`n_labels` is the number of distinct labels actually present in the
k-means output (on degenerate data k-means can find fewer than `k`
distinct clusters, so this is checked on the labels, not on `k`). -/
def kmSilE (c : CollabE) (data : Mat) (k : Nat) : Except ProgError (ℚ × List Nat) :=
  if data.length < k then .error .clusteringError
  else
    let labels := c.kmLabels RANDOM_STATE data k
    if nLabels labels ≤ 1 ∨ data.length ≤ nLabels labels then .error .clusteringError
    else .ok (silhouetteScore (c.dist data) labels, labels)

/-- Embedding of the sweep loop (lines 46-57): for each k, score the matrix
and then the projection, appending to the two score lists; the first
uncaught error aborts the loop with no partial result. -/
def sweepAux (stepM stepP : Nat → Except ProgError ℚ) :
    List Nat → List ℚ → List ℚ → Except ProgError (List ℚ × List ℚ)
  | [], accM, accP => .ok (accM, accP)
  | k :: ks, accM, accP =>
    match stepM k with
    | .error e => .error e
    | .ok sm =>
      match stepP k with
      | .error e => .error e
      | .ok sp => sweepAux stepM stepP ks (accM ++ [sm]) (accP ++ [sp])

/-- The sweep over `k_values` starting from empty score lists. -/
def sweepBoth (stepM stepP : Nat → Except ProgError ℚ) :
    Except ProgError (List ℚ × List ℚ) :=
  sweepAux stepM stepP kValues [] []

/-- Everything the script computes and prints after loading: score lists,
chosen k values, final labels, and descending cluster sizes. -/
structure Report where
  scoresMatrix : List ℚ
  scoresPca : List ℚ
  optimalKMatrix : Nat
  optimalKPca : Nat
  labelsMatrix : List Nat
  labelsPca : List Nat
  sizesMatrix : List Nat
  sizesPca : List Nat
  deriving DecidableEq, Repr

/-- Embedding of the analysis pipeline after loading (lines 31-85): PCA,
sweep, `np.argmax` selection, final re-clustering at the chosen k for each
representation, and the descending cluster-size report. -/
def analyze (c : CollabE) (vm : Mat) : Except ProgError Report :=
  match pcaTransform c.pcaCore vm with
  | .error e => .error e
  | .ok proj =>
    match sweepBoth (fun k => (kmSilE c vm k).map Prod.fst)
        (fun k => (kmSilE c proj k).map Prod.fst) with
    | .error e => .error e
    | .ok (sm, sp) =>
      match kmSilE c vm (selectOptimalK sm) with
      | .error e => .error e
      | .ok fm =>
        match kmSilE c proj (selectOptimalK sp) with
        | .error e => .error e
        | .ok fp =>
          .ok { scoresMatrix := sm, scoresPca := sp,
                optimalKMatrix := selectOptimalK sm, optimalKPca := selectOptimalK sp,
                labelsMatrix := fm.2, labelsPca := fp.2,
                sizesMatrix := sortDescending (bincount fm.2),
                sizesPca := sortDescending (bincount fp.2) }

/-- Embedding of the whole run after argument parsing (lines 28-85). -/
def runE (c : CollabE) (path : String) : Except ProgError Report :=
  match loadVoteMatrix c.execMod path with
  | .error e => .error e
  | .ok vm => analyze c vm

/-- The usage line printed on a wrong argument count (line 25). -/
def usageMessage : String :=
  "Usage: python run_multidimensional_clusters.py <path_to_vote_matrix_file>"

/-- Embedding of the argument check (lines 24-26): `sys.argv` must have
exactly two entries (program name and one positional argument); otherwise
the usage line is printed and the process exits with status 1. -/
def parseArgs (argv : List String) : Except (String × Nat) String :=
  if argv.length = 2 then .ok (argv.getD 1 "") else .error (usageMessage, 1)

/-- The whole program: argument parsing, then the pipeline.  A usage error
is the controlled `(message, exit-code)` outcome; pipeline errors propagate
inside the inner `Except`. -/
def mainE (c : CollabE) (argv : List String) :
    Except (String × Nat) (Except ProgError Report) :=
  match parseArgs argv with
  | .error u => .error u
  | .ok path => .ok (runE c path)

-- Facts about the sweep loop.

/-- Mean of a list of reals. -/
noncomputable def mean1 (l : List ℝ) : ℝ := l.sum / l.length

/-- Column-wise centering of a 2-column matrix. -/
noncomputable def center2 (X : List (ℝ × ℝ)) : List (ℝ × ℝ) :=
  X.map (fun p => (p.1 - mean1 (X.map Prod.fst), p.2 - mean1 (X.map Prod.snd)))

/-- Apply the 2×2 matrix with columns `(a, c)` and `(b, d)` to each row:
row `p` becomes `(p · (a, c), p · (b, d))`. -/
def applyW (a b c d : ℝ) (C : List (ℝ × ℝ)) : List (ℝ × ℝ) :=
  C.map (fun p => (a * p.1 + c * p.2, b * p.1 + d * p.2))

/-- Total squared component of the rows of `C` along direction `v`. -/
def varAlong (C : List (ℝ × ℝ)) (v : ℝ × ℝ) : ℝ :=
  (C.map (fun p => (p.1 * v.1 + p.2 * v.2) ^ 2)).sum

/-- Total squared first coordinate of the rows of `P`. -/
def colSq1 (P : List (ℝ × ℝ)) : ℝ := (P.map (fun p => p.1 ^ 2)).sum

/-- `P` is a PCA output for the 2-column input `X`: the centered rows
transformed by an orthonormal basis whose first direction captures at least
as much squared component as any unit direction. -/
def IsPCA2 (X P : List (ℝ × ℝ)) : Prop :=
  ∃ a b c d : ℝ, a ^ 2 + c ^ 2 = 1 ∧ b ^ 2 + d ^ 2 = 1 ∧ a * b + c * d = 0 ∧
    P = applyW a b c d (center2 X) ∧
    ∀ v : ℝ × ℝ, v.1 ^ 2 + v.2 ^ 2 = 1 → varAlong (center2 X) v ≤ colSq1 P

/-- A 5-row, 2-column vote matrix (too few rows for the k = 2..9 sweep). -/
def fiveRowMatrix : Mat := [[0, 0], [0, 1], [1, 0], [1, 1], [2, 2]]

/-- A 10-row, 2-column vote matrix (enough rows for the whole sweep). -/
def tenRowMatrix : Mat :=
  [[0, 0], [0, 1], [1, 0], [1, 1], [2, 2], [3, 3], [3, 4], [4, 3], [4, 4], [5, 5]]

/-- A module environment exposing `voteMatrix` with the 5-row matrix. -/
def fiveRowEnv : String → Option Mat :=
  fun a => if a = "voteMatrix" then some fiveRowMatrix else none

/-- A concrete, fully computable collaborator assignment: module execution
always yields `fiveRowEnv`, k-means labels row i with `i % k`, all
distances are 0, and the PCA core keeps the first two columns. -/
def sampleCollab : CollabE :=
  { execMod := fun _ => some fiveRowEnv,
    kmLabels := fun _ data k => (List.range data.length).map (fun i => i % k),
    dist := fun _ _ _ => 0,
    pcaCore := fun X => X.map (fun row => row.take 2) }

/-- A collaborator whose module execution always fails. -/
def failCollab : CollabE :=
  { execMod := fun _ => none,
    kmLabels := fun _ data k => (List.range data.length).map (fun i => i % k),
    dist := fun _ _ _ => 0,
    pcaCore := fun X => X }

/-- A module environment exposing a table only under the name `votes`. -/
def wrongNameEnv : String → Option Mat :=
  fun a => if a = "votes" then some [[1, 2], [3, 4]] else none

/-- A rectangular 10-row, 2-column matrix whose rows are all identical:
k-means then finds a single distinct cluster and `silhouette_score`
raises. -/
def degenerateMatrix : Mat :=
  [[1, 1], [1, 1], [1, 1], [1, 1], [1, 1], [1, 1], [1, 1], [1, 1], [1, 1], [1, 1]]

/-- Collaborators modelling the library on `degenerateMatrix`: with every
row identical, k-means collapses all samples into cluster 0 (the library's
"number of distinct clusters found smaller than n_clusters" case). -/
def degenerateCollab : CollabE :=
  { execMod := fun _ => none,
    kmLabels := fun _ data _ => List.replicate data.length 0,
    dist := fun _ _ _ => 0,
    pcaCore := fun X => X }

-- ---------------------------------------------------------------------------
-- Claims.
-- ---------------------------------------------------------------------------

instance {ε α : Type} [DecidableEq ε] [DecidableEq α] : DecidableEq (Except ε α)
  | .error e, .error e' => decidable_of_iff (e = e') (by simp)
  | .error _, .ok _ => isFalse (fun h => by cases h)
  | .ok _, .error _ => isFalse (fun h => by cases h)
  | .ok a, .ok a' => decidable_of_iff (a = a') (by simp)

/-- The expected report of a run on `tenRowMatrix` with `sampleCollab`. -/
def sampleReport : Report :=
  { scoresMatrix := [0, 0, 0, 0, 0, 0, 0, 0], scoresPca := [0, 0, 0, 0, 0, 0, 0, 0],
    optimalKMatrix := 2, optimalKPca := 2,
    labelsMatrix := [0, 1, 0, 1, 0, 1, 0, 1, 0, 1],
    labelsPca := [0, 1, 0, 1, 0, 1, 0, 1, 0, 1],
    sizesMatrix := [5, 5], sizesPca := [5, 5] }

/-- A stand-in PCA numeric core used to witness the shape contract: every
row is replaced by a fixed 2-entry row. -/
def constTwoCore : Mat → Mat := fun Y => Y.map (fun _ => [0, 0])

-- ---------------------------------------------------------------------------
-- Theorems.
-- ---------------------------------------------------------------------------

theorem foldl_max_mem (xs : List ℚ) (a : ℚ) : xs.foldl max a = a ∨ xs.foldl max a ∈ xs := by
  induction xs generalizing a with
  | nil => exact Or.inl rfl
  | cons x xs ih =>
    rcases ih (max a x) with h | h
    · rcases max_choice a x with h' | h'
      · exact Or.inl (by rw [List.foldl_cons, h, h'])
      · exact Or.inr (by rw [List.foldl_cons, h, h']; exact List.mem_cons_self x xs)
    · exact Or.inr (List.mem_cons_of_mem x h)

theorem le_foldl_max (xs : List ℚ) (a : ℚ) : a ≤ xs.foldl max a := by
  induction xs generalizing a with
  | nil => exact le_refl a
  | cons x xs ih => exact le_trans (le_max_left a x) (ih (max a x))

theorem mem_le_foldl_max (xs : List ℚ) (a : ℚ) : ∀ x ∈ xs, x ≤ xs.foldl max a := by
  induction xs generalizing a with
  | nil => intro x hx; cases hx
  | cons y ys ih =>
    intro x hx
    rcases List.mem_cons.mp hx with h | h
    · subst h; exact le_trans (le_max_right a x) (le_foldl_max ys (max a x))
    · exact ih (max a y) x h

theorem listMax_mem {l : List ℚ} (h : l ≠ []) : listMax l ∈ l := by
  cases l with
  | nil => exact absurd rfl h
  | cons x xs =>
    show xs.foldl max x ∈ x :: xs
    rcases foldl_max_mem xs x with h' | h'
    · rw [h']; exact List.mem_cons_self x xs
    · exact List.mem_cons_of_mem x h'

theorem le_listMax {l : List ℚ} {x : ℚ} (hx : x ∈ l) : x ≤ listMax l := by
  cases l with
  | nil => cases hx
  | cons y ys =>
    show x ≤ ys.foldl max y
    rcases List.mem_cons.mp hx with h | h
    · subst h; exact le_foldl_max ys x
    · exact mem_le_foldl_max ys y x h

-- Facts about `npArgmax`.

theorem npArgmax_lt_length {l : List ℚ} (h : l ≠ []) : npArgmax l < l.length :=
  List.findIdx_lt_length_of_exists ⟨listMax l, listMax_mem h, by simp⟩

theorem getElem_npArgmax {l : List ℚ} (h : npArgmax l < l.length) :
    l[npArgmax l] = listMax l := by
  have := @List.findIdx_getElem _ (fun x => decide (x = listMax l)) l h
  simpa [npArgmax] using this

theorem npArgmax_first {l : List ℚ} {j : Nat} (hj : j < npArgmax l) (hlen : j < l.length) :
    l[j] ≠ listMax l := by
  have := @List.not_of_lt_findIdx _ (fun x => decide (x = listMax l)) l j hj
  simpa using this

theorem kValues_getD : ∀ i < 8, kValues.getD i 0 = i + 2 := by decide

theorem kValues_length : kValues.length = 8 := by decide

-- ---------------------------------------------------------------------------
-- Silhouette scoring, embedded from its standard definition (the definition
-- the library documents and computes): for sample i with cluster C(i),
--   a(i) = mean distance from i to the other members of C(i),
--   b(i) = min over other clusters C of the mean distance from i to C,
--   s(i) = (b(i) - a(i)) / max(a(i), b(i)), and s(i) = 0 when C(i) = {i};
-- the score is the mean of s(i) over all samples.  Distances are supplied by
-- an explicit function (the library computes euclidean float distances,
-- which are nonnegative rationals).
-- ---------------------------------------------------------------------------

theorem meanQ_nonneg {l : List ℚ} (h : ∀ x ∈ l, 0 ≤ x) : 0 ≤ meanQ l := by
  unfold meanQ
  have hs : 0 ≤ l.sum := List.sum_nonneg h
  positivity

theorem foldl_min_nonneg {xs : List ℚ} {a : ℚ} (ha : 0 ≤ a) (h : ∀ x ∈ xs, 0 ≤ x) :
    0 ≤ xs.foldl min a := by
  induction xs generalizing a with
  | nil => exact ha
  | cons x xs ih =>
    refine ih (le_min ha (h x (List.mem_cons_self x xs))) (fun y hy => h y ?_)
    exact List.mem_cons_of_mem x hy

theorem minOrDefault_nonneg {l : List ℚ} (h : ∀ x ∈ l, 0 ≤ x) : 0 ≤ minOrDefault l := by
  cases l with
  | nil => exact le_refl 0
  | cons x xs =>
    exact foldl_min_nonneg (h x (List.mem_cons_self x xs))
      (fun y hy => h y (List.mem_cons_of_mem x hy))

theorem silA_nonneg {d : Nat → Nat → ℚ} (hd : ∀ i j, 0 ≤ d i j) (labels : List Nat) (i : Nat) :
    0 ≤ silA d labels i := by
  refine meanQ_nonneg fun x hx => ?_
  rcases List.mem_map.mp hx with ⟨j, _, rfl⟩
  exact hd i j

theorem silB_nonneg {d : Nat → Nat → ℚ} (hd : ∀ i j, 0 ≤ d i j) (labels : List Nat) (i : Nat) :
    0 ≤ silB d labels i := by
  refine minOrDefault_nonneg fun x hx => ?_
  rcases List.mem_map.mp hx with ⟨c, _, rfl⟩
  refine meanQ_nonneg fun y hy => ?_
  rcases List.mem_map.mp hy with ⟨j, _, rfl⟩
  exact hd i j

theorem silhouetteSample_bounds {d : Nat → Nat → ℚ} (hd : ∀ i j, 0 ≤ d i j)
    (labels : List Nat) (i : Nat) :
    -1 ≤ silhouetteSample d labels i ∧ silhouetteSample d labels i ≤ 1 := by
  unfold silhouetteSample
  split
  · norm_num
  · have ha0 : 0 ≤ silA d labels i := silA_nonneg hd labels i
    have hb0 : 0 ≤ silB d labels i := silB_nonneg hd labels i
    set a := silA d labels i
    set b := silB d labels i
    have h0 : 0 ≤ max a b := le_trans ha0 (le_max_left a b)
    rcases eq_or_lt_of_le h0 with hm | hm
    · rw [← hm, div_zero]; norm_num
    · constructor
      · rw [le_div_iff hm]
        have := le_max_left a b
        linarith
      · rw [div_le_one hm]
        have := le_max_right a b
        linarith

theorem meanQ_bounds {l : List ℚ} (h : ∀ x ∈ l, -1 ≤ x ∧ x ≤ 1) :
    -1 ≤ meanQ l ∧ meanQ l ≤ 1 := by
  unfold meanQ
  cases l with
  | nil => norm_num
  | cons y ys =>
    have hlen : (0 : ℚ) < ((y :: ys).length : ℚ) := by
      exact_mod_cast Nat.succ_pos ys.length
    have hub : (y :: ys).sum ≤ ((y :: ys).length : ℚ) := by
      have := List.sum_le_card_nsmul (y :: ys) 1 (fun x hx => (h x hx).2)
      simpa [nsmul_eq_mul] using this
    have hlb : -(((y :: ys).length : ℚ)) ≤ (y :: ys).sum := by
      have := List.card_nsmul_le_sum (y :: ys) (-1) (fun x hx => (h x hx).1)
      simpa [nsmul_eq_mul] using this
    constructor
    · rw [le_div_iff hlen]; linarith
    · rw [div_le_one hlen]; linarith

theorem silhouetteScore_bounds {d : Nat → Nat → ℚ} (hd : ∀ i j, 0 ≤ d i j)
    (labels : List Nat) :
    -1 ≤ silhouetteScore d labels ∧ silhouetteScore d labels ≤ 1 := by
  refine meanQ_bounds fun x hx => ?_
  rcases List.mem_map.mp hx with ⟨i, _, rfl⟩
  exact silhouetteSample_bounds hd labels i

-- ---------------------------------------------------------------------------
-- Reporting: `np.bincount`, `sorted(-, reverse=True)`, and `enumerate` with
-- ranks starting at 1 (lines 76-85 of the source).
-- ---------------------------------------------------------------------------

theorem foldr_max_lt {labels : List Nat} {k : Nat} (hk : 0 < k)
    (h : ∀ l ∈ labels, l < k) : labels.foldr max 0 < k := by
  induction labels with
  | nil => simpa using hk
  | cons x xs ih =>
    have hx : x < k := h x (List.mem_cons_self x xs)
    have hxs : xs.foldr max 0 < k := ih (fun l hl => h l (List.mem_cons_of_mem x hl))
    simpa [List.foldr_cons] using max_lt hx hxs

theorem le_foldr_max {labels : List Nat} {x : Nat} (hx : x ∈ labels) :
    x ≤ labels.foldr max 0 := by
  induction labels with
  | nil => cases hx
  | cons y ys ih =>
    rcases List.mem_cons.mp hx with h | h
    · subst h; exact le_max_left x (ys.foldr max 0)
    · exact le_trans (ih h) (le_max_right y (ys.foldr max 0))

theorem sum_count_range (labels : List Nat) (n : Nat) (h : ∀ l ∈ labels, l < n) :
    (∑ i in Finset.range n, labels.count i) = labels.length := by
  induction labels with
  | nil => simp
  | cons x xs ih =>
    have hx : x < n := h x (List.mem_cons_self x xs)
    have hxs := ih (fun l hl => h l (List.mem_cons_of_mem x hl))
    have hsplit : ∀ i : Nat, (x :: xs).count i = xs.count i + (if x = i then 1 else 0) := by
      intro i
      simp [List.count_cons, beq_iff_eq]
    calc (∑ i in Finset.range n, (x :: xs).count i)
        = ∑ i in Finset.range n, (xs.count i + if x = i then 1 else 0) := by
          exact Finset.sum_congr rfl (fun i _ => hsplit i)
      _ = (∑ i in Finset.range n, xs.count i) + ∑ i in Finset.range n, (if x = i then 1 else 0) :=
          Finset.sum_add_distrib
      _ = xs.length + 1 := by
          rw [hxs, Finset.sum_ite_eq]
          simp [Finset.mem_range.mpr hx]
      _ = (x :: xs).length := by simp

theorem sum_range_count (labels : List Nat) (n : Nat) (h : ∀ l ∈ labels, l < n) :
    ((List.range n).map (fun i => labels.count i)).sum = labels.length := by
  have : ((List.range n).map (fun i => labels.count i)).sum
      = ∑ i in Finset.range n, labels.count i := rfl
  rw [this]
  exact sum_count_range labels n h

/-- The bincount entries sum to the number of samples. -/
theorem bincount_sum {labels : List Nat} {k : Nat} (h : ∀ l ∈ labels, l < k) :
    (bincount labels).sum = labels.length := by
  cases labels with
  | nil => simp [bincount]
  | cons x xs =>
    show ((List.range ((x :: xs).foldr max 0 + 1)).map (fun i => (x :: xs).count i)).sum
      = (x :: xs).length
    refine sum_range_count (x :: xs) _ (fun l hl => ?_)
    exact Nat.lt_succ_of_le (le_foldr_max hl)

/-- At most `k` entries of the bincount are nonzero when all labels are `< k`. -/
theorem bincount_nonzero_le {labels : List Nat} {k : Nat} (h : ∀ l ∈ labels, l < k) :
    (bincount labels).countP (fun s => decide (0 < s)) ≤ k := by
  cases labels with
  | nil => simp [bincount]
  | cons x xs =>
    have hk : 0 < k := lt_of_le_of_lt (Nat.zero_le x) (h x (List.mem_cons_self x xs))
    have hlen : (bincount (x :: xs)).length = (x :: xs).foldr max 0 + 1 := by
      simp [bincount]
    have hmax : (x :: xs).foldr max 0 < k := foldr_max_lt hk h
    calc (bincount (x :: xs)).countP (fun s => decide (0 < s))
        ≤ (bincount (x :: xs)).length := List.countP_le_length _
      _ ≤ k := by rw [hlen]; omega

/-- `sorted(-, reverse=True)` yields a descending list. -/
theorem sortDescending_sorted (l : List Nat) :
    List.Sorted (· ≥ ·) (sortDescending l) :=
  List.sorted_insertionSort (· ≥ ·) l

/-- `sorted(-, reverse=True)` is a permutation of its input. -/
theorem sortDescending_perm (l : List Nat) : (sortDescending l).Perm l :=
  List.perm_insertionSort (· ≥ ·) l

/-- The printed rank labels are exactly `1, 2, ...` in order. -/
theorem reportSizes_ranks (l : List Nat) :
    (reportSizes l).map Prod.fst = List.range' 1 (sortDescending l).length := by
  unfold reportSizes
  rw [List.map_map, List.range'_eq_map_range]
  have h1 : (Prod.fst ∘ fun p : Nat × Nat => (p.1 + 1, p.2)) = (fun p : Nat × Nat => p.1 + 1) :=
    rfl
  rw [h1]
  have h2 : (sortDescending l).enum.map (fun p => p.1 + 1)
      = ((sortDescending l).enum.map Prod.fst).map (fun i => i + 1) := by
    rw [List.map_map]; rfl
  rw [h2, List.enum_map_fst]
  simp [Nat.add_comm]

/-- The printed sizes are exactly the descending-sorted sizes. -/
theorem reportSizes_values (l : List Nat) :
    (reportSizes l).map Prod.snd = sortDescending l := by
  unfold reportSizes
  rw [List.map_map]
  have h1 : (Prod.snd ∘ fun p : Nat × Nat => (p.1 + 1, p.2)) = (Prod.snd : Nat × Nat → Nat) :=
    rfl
  rw [h1, List.enum_map_snd]

-- ---------------------------------------------------------------------------
-- The pipeline.  External numeric collaborators are explicit function
-- parameters collected in `CollabE`; each is deterministic given its
-- arguments (the script fixes `random_state=42`, and PCA / module execution
-- take no random input).  A collaborator failure is an `Except.error`,
-- mirroring an uncaught python exception; the script installs no handler.
-- ---------------------------------------------------------------------------

theorem sweepAux_ok (stepM stepP : Nat → Except ProgError ℚ) :
    ∀ (ks : List Nat) (accM accP : List ℚ),
      (∀ k ∈ ks, (∃ q, stepM k = .ok q) ∧ (∃ q, stepP k = .ok q)) →
      ∃ sm sp, sweepAux stepM stepP ks accM accP = .ok (accM ++ sm, accP ++ sp) ∧
        sm.length = ks.length ∧ sp.length = ks.length ∧
        (∀ s ∈ sm, ∃ k ∈ ks, stepM k = .ok s) ∧
        (∀ s ∈ sp, ∃ k ∈ ks, stepP k = .ok s) := by
  intro ks
  induction ks with
  | nil =>
    intro accM accP _
    exact ⟨[], [], by simp [sweepAux], rfl, rfl, by simp, by simp⟩
  | cons k ks ih =>
    intro accM accP h
    obtain ⟨⟨qm, hqm⟩, ⟨qp, hqp⟩⟩ := h k (List.mem_cons_self k ks)
    obtain ⟨sm, sp, hrec, hlm, hlp, hmm, hmp⟩ :=
      ih (accM ++ [qm]) (accP ++ [qp]) (fun k' hk' => h k' (List.mem_cons_of_mem k hk'))
    refine ⟨qm :: sm, qp :: sp, ?_, by simp [hlm], by simp [hlp], ?_, ?_⟩
    · show sweepAux stepM stepP (k :: ks) accM accP = _
      unfold sweepAux
      rw [hqm, hqp]
      simpa [List.append_assoc] using hrec
    · intro s hs
      rcases List.mem_cons.mp hs with h' | h'
      · exact ⟨k, List.mem_cons_self k ks, h' ▸ hqm⟩
      · obtain ⟨k', hk', hst⟩ := hmm s h'
        exact ⟨k', List.mem_cons_of_mem k hk', hst⟩
    · intro s hs
      rcases List.mem_cons.mp hs with h' | h'
      · exact ⟨k, List.mem_cons_self k ks, h' ▸ hqp⟩
      · obtain ⟨k', hk', hst⟩ := hmp s h'
        exact ⟨k', List.mem_cons_of_mem k hk', hst⟩

theorem sweepAux_error (stepM stepP : Nat → Except ProgError ℚ) :
    ∀ (ks : List Nat) (accM accP : List ℚ),
      (∃ k ∈ ks, (∃ e, stepM k = .error e) ∨ (∃ e, stepP k = .error e)) →
      ∃ e, sweepAux stepM stepP ks accM accP = .error e := by
  intro ks
  induction ks with
  | nil =>
    intro _ _ h
    obtain ⟨k, hk, _⟩ := h
    cases hk
  | cons k ks ih =>
    intro accM accP h
    show ∃ e, sweepAux stepM stepP (k :: ks) accM accP = .error e
    unfold sweepAux
    obtain ⟨k', hk', herr⟩ := h
    cases hm : stepM k with
    | error e => exact ⟨e, rfl⟩
    | ok qm =>
      cases hp : stepP k with
      | error e => exact ⟨e, rfl⟩
      | ok qp =>
        rcases List.mem_cons.mp hk' with rfl | hk'
        · rcases herr with ⟨e, he⟩ | ⟨e, he⟩
          · rw [hm] at he; cases he
          · rw [hp] at he; cases he
        · exact ih _ _ ⟨k', hk', herr⟩

-- Facts about `kmSilE`.

theorem kmSilE_ok {c : CollabE} {data : Mat} {k : Nat} (hn : ¬ data.length < k)
    (hl1 : 1 < nLabels (c.kmLabels RANDOM_STATE data k))
    (hl2 : nLabels (c.kmLabels RANDOM_STATE data k) < data.length) :
    kmSilE c data k =
      .ok (silhouetteScore (c.dist data) (c.kmLabels RANDOM_STATE data k),
           c.kmLabels RANDOM_STATE data k) := by
  unfold kmSilE
  rw [if_neg hn, if_neg (by omega)]

theorem kmSilE_error {c : CollabE} {data : Mat} {k : Nat}
    (h : data.length < k ∨ nLabels (c.kmLabels RANDOM_STATE data k) ≤ 1 ∨
      data.length ≤ nLabels (c.kmLabels RANDOM_STATE data k)) :
    kmSilE c data k = .error .clusteringError := by
  unfold kmSilE
  rcases Nat.lt_or_ge data.length k with hlt | hge
  · rw [if_pos hlt]
  · rw [if_neg (by omega), if_pos (by omega)]

theorem kValues_mem_bounds : ∀ k ∈ kValues, 2 ≤ k ∧ k ≤ 9 := by decide

theorem kValues_ne_nil : kValues ≠ [] := by decide

/-- Anatomy of a successful run: every stage succeeded and the report fields
are exactly the stage outputs. -/
theorem analyze_ok_anatomy {c : CollabE} {vm : Mat} {r : Report}
    (h : analyze c vm = .ok r) :
    ∃ proj sm sp fm fp,
      pcaTransform c.pcaCore vm = .ok proj ∧
      sweepBoth (fun k => (kmSilE c vm k).map Prod.fst)
        (fun k => (kmSilE c proj k).map Prod.fst) = .ok (sm, sp) ∧
      kmSilE c vm (selectOptimalK sm) = .ok fm ∧
      kmSilE c proj (selectOptimalK sp) = .ok fp ∧
      r = { scoresMatrix := sm, scoresPca := sp,
            optimalKMatrix := selectOptimalK sm, optimalKPca := selectOptimalK sp,
            labelsMatrix := fm.2, labelsPca := fp.2,
            sizesMatrix := sortDescending (bincount fm.2),
            sizesPca := sortDescending (bincount fp.2) } := by
  unfold analyze at h
  split at h
  · cases h
  next proj hpca =>
    split at h
    · cases h
    next sm sp hsw =>
      split at h
      · cases h
      next fm hfm =>
        split at h
        · cases h
        next fp hfp =>
          exact ⟨proj, sm, sp, fm, fp, hpca, hsw, hfm, hfp, (Except.ok.inj h).symm⟩

/-- Length invariant of the sweep loop: a successful sweep appends exactly
one score per swept k to each accumulator. -/
theorem sweepAux_ok_lengths (stepM stepP : Nat → Except ProgError ℚ) :
    ∀ (ks : List Nat) (accM accP : List ℚ) (l1 l2 : List ℚ),
      sweepAux stepM stepP ks accM accP = .ok (l1, l2) →
      l1.length = accM.length + ks.length ∧ l2.length = accP.length + ks.length := by
  intro ks
  induction ks with
  | nil =>
    intro accM accP l1 l2 h
    unfold sweepAux at h
    obtain ⟨h1, h2⟩ := Prod.mk.injEq _ _ _ _ ▸ Except.ok.inj h
    simp [← h1, ← h2]
  | cons k ks ih =>
    intro accM accP l1 l2 h
    unfold sweepAux at h
    cases hm : stepM k with
    | error e => rw [hm] at h; cases h
    | ok qm =>
      rw [hm] at h
      cases hp : stepP k with
      | error e => rw [hp] at h; cases h
      | ok qp =>
        rw [hp] at h
        obtain ⟨h1, h2⟩ := ih (accM ++ [qm]) (accP ++ [qp]) l1 l2 h
        simp at h1 h2
        constructor <;> simp <;> omega

-- ---------------------------------------------------------------------------
-- Idealized real-valued model of 2-column PCA, for the boundary claim about
-- 2-column inputs.  `PCA(n_components=2)` on a 2-column matrix centers the
-- data and applies the orthonormal change of basis whose first direction
-- maximizes the captured variance.  `IsPCA2 X P` says exactly that `P` is
-- such an output for input `X` (rows as pairs of reals).
-- ---------------------------------------------------------------------------

/-- A 2×2 matrix with orthonormal columns has orthonormal rows. -/
theorem orthonormal_cols_rows {a b c d : ℝ} (h1 : a ^ 2 + c ^ 2 = 1)
    (h2 : b ^ 2 + d ^ 2 = 1) (h3 : a * b + c * d = 0) :
    a ^ 2 + b ^ 2 = 1 ∧ c ^ 2 + d ^ 2 = 1 ∧ a * c + b * d = 0 := by
  have e1 : a * b = -(c * d) := by linarith
  have e3 : a ^ 2 * b ^ 2 = c ^ 2 * d ^ 2 := by
    calc a ^ 2 * b ^ 2 = (a * b) ^ 2 := by ring
      _ = (-(c * d)) ^ 2 := by rw [e1]
      _ = c ^ 2 * d ^ 2 := by ring
  have hc2 : c ^ 2 = 1 - a ^ 2 := by linarith
  have hd2 : d ^ 2 = 1 - b ^ 2 := by linarith
  have key : a ^ 2 + b ^ 2 = 1 := by nlinarith [e3, hc2, hd2]
  refine ⟨key, by linarith, ?_⟩
  have e5 : (a * c + b * d) ^ 2 = 0 := by nlinarith [e1, hc2, hd2, key]
  exact (pow_eq_zero_iff two_ne_zero).mp e5

/-- An orthonormal change of basis preserves the squared norm of each row. -/
theorem applyW_normSq {a b c d : ℝ} (hr1 : a ^ 2 + b ^ 2 = 1)
    (hr2 : c ^ 2 + d ^ 2 = 1) (hr3 : a * c + b * d = 0) (x y : ℝ) :
    (a * x + c * y) ^ 2 + (b * x + d * y) ^ 2 = x ^ 2 + y ^ 2 := by
  have h : (a * x + c * y) ^ 2 + (b * x + d * y) ^ 2
      = x ^ 2 * (a ^ 2 + b ^ 2) + y ^ 2 * (c ^ 2 + d ^ 2) + 2 * x * y * (a * c + b * d) := by
    ring
  rw [h, hr1, hr2, hr3]
  ring

-- ---------------------------------------------------------------------------
-- Concrete fixtures for witnesses.
-- ---------------------------------------------------------------------------

/-- C1: for every score sequence of the sweep's shape (8 entries, indexed by
position in the k-range [2, 9]), the Selector `k_values[np.argmax(scores)]`
returns a k in [2, 9] whose score equals the maximum of the sequence, and no
smaller swept k attains that maximum — the chosen k is the smallest k
achieving the maximum, by the first-occurrence convention of `np.argmax`. -/
theorem selector_first_max (s : List ℚ) (hlen : s.length = 8) :
    (2 ≤ selectOptimalK s ∧ selectOptimalK s ≤ 9) ∧
    s.getD (selectOptimalK s - 2) 0 = listMax s ∧
    (∀ k', 2 ≤ k' → k' ≤ 9 → s.getD (k' - 2) 0 = listMax s → selectOptimalK s ≤ k') := by
  have hne : s ≠ [] := by
    intro h
    rw [h] at hlen
    cases hlen
  have hargmax : npArgmax s < s.length := npArgmax_lt_length hne
  have hlt8 : npArgmax s < 8 := by omega
  have hsel : selectOptimalK s = npArgmax s + 2 := kValues_getD _ hlt8
  refine ⟨⟨by omega, by omega⟩, ?_, ?_⟩
  · rw [hsel]
    have hidx : npArgmax s + 2 - 2 = npArgmax s := by omega
    rw [hidx, List.getD_eq_getElem s 0 hargmax]
    exact getElem_npArgmax hargmax
  · intro k' h2 h9 hk'
    by_contra hcon
    push_neg at hcon
    have hidx : k' - 2 < npArgmax s := by omega
    have hidxlen : k' - 2 < s.length := by omega
    have hne' := npArgmax_first hidx hidxlen
    rw [List.getD_eq_getElem s 0 hidxlen] at hk'
    exact hne' hk'

/-- Witness for C1 at the concrete score sequence `[0, 5, 5, 0, 0, 0, 0, 0]`
(maximum 5, first attained at position 1, so the chosen k is 3). -/
theorem selector_first_max_witness :
    ((([0, 5, 5, 0, 0, 0, 0, 0] : List ℚ).length = 8) ∧
     (2 ≤ selectOptimalK [0, 5, 5, 0, 0, 0, 0, 0] ∧
        selectOptimalK [0, 5, 5, 0, 0, 0, 0, 0] ≤ 9) ∧
     ([0, 5, 5, 0, 0, 0, 0, 0] : List ℚ).getD
        (selectOptimalK [0, 5, 5, 0, 0, 0, 0, 0] - 2) 0
        = listMax [0, 5, 5, 0, 0, 0, 0, 0] ∧
     (∀ k', 2 ≤ k' → k' ≤ 9 →
        (([0, 5, 5, 0, 0, 0, 0, 0] : List ℚ).getD (k' - 2) 0
          = listMax [0, 5, 5, 0, 0, 0, 0, 0]) →
        selectOptimalK [0, 5, 5, 0, 0, 0, 0, 0] ≤ k')) := by
  refine ⟨by decide, ?_⟩
  exact selector_first_max [0, 5, 5, 0, 0, 0, 0, 0] (by decide)

/-- C3: the run after loading is a deterministic function of the vote
matrix: with the same collaborators (each a pure function, seeded with the
fixed `RANDOM_STATE`), two runs on equal matrices produce equal score
sequences, equal chosen k values, and equal sorted cluster-size rankings. -/
theorem run_deterministic (c : CollabE) (vm vm' : Mat) (h : vm = vm') :
    analyze c vm = analyze c vm' ∧
    (∀ r r', analyze c vm = .ok r → analyze c vm' = .ok r' →
      r.scoresMatrix = r'.scoresMatrix ∧ r.scoresPca = r'.scoresPca ∧
      r.optimalKMatrix = r'.optimalKMatrix ∧ r.optimalKPca = r'.optimalKPca ∧
      r.sizesMatrix = r'.sizesMatrix ∧ r.sizesPca = r'.sizesPca) := by
  subst h
  refine ⟨rfl, ?_⟩
  intro r r' h1 h2
  rw [h1] at h2
  cases Except.ok.inj h2
  exact ⟨rfl, rfl, rfl, rfl, rfl, rfl⟩

/-- Witness for C3: two runs on the concrete 10-row matrix agree. -/
theorem run_deterministic_witness :
    analyze sampleCollab tenRowMatrix = analyze sampleCollab tenRowMatrix ∧
    (∀ r r', analyze sampleCollab tenRowMatrix = .ok r →
      analyze sampleCollab tenRowMatrix = .ok r' →
      r.scoresMatrix = r'.scoresMatrix ∧ r.scoresPca = r'.scoresPca ∧
      r.optimalKMatrix = r'.optimalKMatrix ∧ r.optimalKPca = r'.optimalKPca ∧
      r.sizesMatrix = r'.sizesMatrix ∧ r.sizesPca = r'.sizesPca) :=
  run_deterministic sampleCollab tenRowMatrix tenRowMatrix rfl

/-- C4: final labels (one per row, each `< k` by the k-means contract)
induce at most k non-empty groups whose sizes sum to the row count N, and
the report sorts the group sizes descending and labels them with positional
ranks 1, 2, ... -/
theorem cluster_sizes_report (labels : List Nat) (k N : Nat)
    (hN : labels.length = N) (hlab : ∀ l ∈ labels, l < k) :
    (bincount labels).sum = N ∧
    (bincount labels).countP (fun s => decide (0 < s)) ≤ k ∧
    List.Sorted (· ≥ ·) (sortDescending (bincount labels)) ∧
    (sortDescending (bincount labels)).Perm (bincount labels) ∧
    (reportSizes (bincount labels)).map Prod.fst
      = List.range' 1 (sortDescending (bincount labels)).length ∧
    (reportSizes (bincount labels)).map Prod.snd = sortDescending (bincount labels) :=
  ⟨hN ▸ bincount_sum hlab, bincount_nonzero_le hlab, sortDescending_sorted _,
   sortDescending_perm _, reportSizes_ranks _, reportSizes_values _⟩

/-- Witness for C4 at the concrete labelling `[0, 1, 1, 2, 0, 0]` with
k = 4 and N = 6. -/
theorem cluster_sizes_report_witness :
    (([0, 1, 1, 2, 0, 0] : List Nat).length = 6 ∧ ∀ l ∈ [0, 1, 1, 2, 0, 0], l < 4) ∧
    (bincount [0, 1, 1, 2, 0, 0]).sum = 6 ∧
    (bincount [0, 1, 1, 2, 0, 0]).countP (fun s => decide (0 < s)) ≤ 4 ∧
    List.Sorted (· ≥ ·) (sortDescending (bincount [0, 1, 1, 2, 0, 0])) ∧
    (sortDescending (bincount [0, 1, 1, 2, 0, 0])).Perm (bincount [0, 1, 1, 2, 0, 0]) ∧
    (reportSizes (bincount [0, 1, 1, 2, 0, 0])).map Prod.fst
      = List.range' 1 (sortDescending (bincount [0, 1, 1, 2, 0, 0])).length ∧
    (reportSizes (bincount [0, 1, 1, 2, 0, 0])).map Prod.snd
      = sortDescending (bincount [0, 1, 1, 2, 0, 0]) := by
  refine ⟨⟨by decide, by decide⟩, ?_⟩
  exact cluster_sizes_report [0, 1, 1, 2, 0, 0] 4 6 (by decide) (by decide)

/-- C6: with any argument count other than exactly one positional argument
the program emits the usage line and exits with status 1 without invoking
any collaborator; with exactly one argument it runs the pipeline on it. -/
theorem argv_usage_exit (c : CollabE) (argv : List String) :
    (argv.length ≠ 2 → mainE c argv = .error (usageMessage, 1)) ∧
    (argv.length = 2 → mainE c argv = .ok (runE c (argv.getD 1 ""))) := by
  constructor
  · intro h
    unfold mainE parseArgs
    rw [if_neg h]
  · intro h
    unfold mainE parseArgs
    rw [if_pos h]

/-- Witness for C6: no positional argument (`argv = ["prog"]`) exits with
the usage message and status 1; one positional argument proceeds. -/
theorem argv_usage_exit_witness :
    mainE failCollab ["prog"] = .error (usageMessage, 1) ∧
    mainE failCollab ["prog", "votes.py"] = .ok (runE failCollab "votes.py") :=
  ⟨(argv_usage_exit failCollab ["prog"]).1 (by decide),
   (argv_usage_exit failCollab ["prog", "votes.py"]).2 (by decide)⟩

/-- C10: the loader executes the input file as a module and reads exactly
the attribute `voteMatrix`: it returns that attribute's value when present
and aborts with a load error when it is absent — even when the module
exposes an equivalent table under a different name. -/
theorem loader_requires_voteMatrix_attr
    (execMod : String → Option (String → Option Mat)) (path : String) :
    (∀ env, execMod path = some env →
      (∀ vm, env "voteMatrix" = some vm → loadVoteMatrix execMod path = .ok vm) ∧
      (env "voteMatrix" = none →
        ∀ (other : String) (mat : Mat), env other = some mat →
          loadVoteMatrix execMod path = .error .loadError)) ∧
    (execMod path = none → loadVoteMatrix execMod path = .error .loadError) := by
  constructor
  · intro env henv
    constructor
    · intro vm hvm
      simp [loadVoteMatrix, henv, hvm]
    · intro hnone other mat _
      simp [loadVoteMatrix, henv, hnone]
  · intro h
    simp [loadVoteMatrix, h]

/-- Witness for C10: a module exposing the table only under the name
`votes` makes the loader fail even though the table is present. -/
theorem loader_requires_voteMatrix_attr_witness :
    ((fun _ : String => some wrongNameEnv) "m.py" = some wrongNameEnv ∧
     wrongNameEnv "voteMatrix" = none ∧
     wrongNameEnv "votes" = some [[1, 2], [3, 4]]) ∧
    loadVoteMatrix (fun _ => some wrongNameEnv) "m.py" = .error .loadError := by
  refine ⟨⟨rfl, rfl, rfl⟩, ?_⟩
  exact ((loader_requires_voteMatrix_attr (fun _ => some wrongNameEnv) "m.py").1
    wrongNameEnv rfl).2 rfl "votes" [[1, 2], [3, 4]] rfl

/-- Counterexample to C2: the rectangular 10-row, 2-column all-identical
matrix is a valid input (N > 9, M = 2), yet k-means finds a single distinct
cluster on it, `silhouette_score` raises, and the sweep aborts with a
ClusteringError at its very first k instead of producing 8 + 8 scores. -/
theorem sweep_degenerate_cex :
    (Rectangular degenerateMatrix ∧ 9 < degenerateMatrix.length ∧
      2 ≤ nCols degenerateMatrix) ∧
    sweepBoth (fun k => (kmSilE degenerateCollab degenerateMatrix k).map Prod.fst)
      (fun k => (kmSilE degenerateCollab degenerateMatrix k).map Prod.fst)
      = .error .clusteringError ∧
    analyze degenerateCollab degenerateMatrix = .error .clusteringError := by
  refine ⟨⟨by unfold Rectangular; decide, by decide, by decide⟩, rfl, rfl⟩

/-- C2 (amended): for any rectangular input with more than 9 rows and at
least 2 columns, and provided k-means finds at least 2 and at most N - 1
distinct clusters at every swept k on both representations (as it does
whenever the rows are not degenerate — e.g. not all identical), the PCA
stage succeeds and the sweep completes, producing exactly 8 matrix scores
and exactly 8 pca scores, every one a silhouette score lying in [-1, 1]
(for any nonnegative distance collaborator and length-preserving PCA
core). -/
theorem sweep_eight_scores_bounded (c : CollabE) (vm : Mat)
    (hrect : Rectangular vm) (hrows : 9 < vm.length) (hcols : 2 ≤ nCols vm)
    (hproj : (c.pcaCore vm).length = vm.length)
    (hdist : ∀ X i j, 0 ≤ c.dist X i j)
    (hlabM : ∀ k ∈ kValues, 1 < nLabels (c.kmLabels RANDOM_STATE vm k) ∧
      nLabels (c.kmLabels RANDOM_STATE vm k) < vm.length)
    (hlabP : ∀ k ∈ kValues, 1 < nLabels (c.kmLabels RANDOM_STATE (c.pcaCore vm) k) ∧
      nLabels (c.kmLabels RANDOM_STATE (c.pcaCore vm) k) < (c.pcaCore vm).length) :
    ∃ sm sp,
      pcaTransform c.pcaCore vm = .ok (c.pcaCore vm) ∧
      sweepBoth (fun k => (kmSilE c vm k).map Prod.fst)
        (fun k => (kmSilE c (c.pcaCore vm) k).map Prod.fst) = .ok (sm, sp) ∧
      sm.length = 8 ∧ sp.length = 8 ∧
      (∀ s ∈ sm, -1 ≤ s ∧ s ≤ 1) ∧ (∀ s ∈ sp, -1 ≤ s ∧ s ≤ 1) := by
  have hpca : pcaTransform c.pcaCore vm = .ok (c.pcaCore vm) := by
    unfold pcaTransform
    rw [if_pos (le_min (by omega) hcols)]
  have hstep : ∀ (data : Mat), 9 < data.length → ∀ k ∈ kValues,
      (1 < nLabels (c.kmLabels RANDOM_STATE data k) ∧
        nLabels (c.kmLabels RANDOM_STATE data k) < data.length) →
      ((kmSilE c data k).map Prod.fst)
        = .ok (silhouetteScore (c.dist data) (c.kmLabels RANDOM_STATE data k)) := by
    intro data hd k hk hl
    obtain ⟨hk2, hk9⟩ := kValues_mem_bounds k hk
    rw [kmSilE_ok (by omega) hl.1 hl.2]
    rfl
  have hprojrows : 9 < (c.pcaCore vm).length := by omega
  obtain ⟨sm, sp, hsw, hlm, hlp, hmm, hmp⟩ :=
    sweepAux_ok (fun k => (kmSilE c vm k).map Prod.fst)
      (fun k => (kmSilE c (c.pcaCore vm) k).map Prod.fst) kValues [] []
      (fun k hk => ⟨⟨_, hstep vm hrows k hk (hlabM k hk)⟩,
        ⟨_, hstep (c.pcaCore vm) hprojrows k hk (hlabP k hk)⟩⟩)
  refine ⟨sm, sp, hpca, by simpa [sweepBoth] using hsw,
    by rw [hlm]; exact kValues_length, by rw [hlp]; exact kValues_length, ?_, ?_⟩
  · intro s hs
    obtain ⟨k, hk, hoks⟩ := hmm s hs
    rw [hstep vm hrows k hk (hlabM k hk)] at hoks
    cases Except.ok.inj hoks
    exact silhouetteScore_bounds (hdist vm) _
  · intro s hs
    obtain ⟨k, hk, hoks⟩ := hmp s hs
    rw [hstep (c.pcaCore vm) hprojrows k hk (hlabP k hk)] at hoks
    cases Except.ok.inj hoks
    exact silhouetteScore_bounds (hdist (c.pcaCore vm)) _

/-- Witness for C2 at the concrete 10-row, 2-column matrix with the sample
collaborators (all distances 0; the `i % k` labelling has exactly k
distinct labels for every swept k). -/
theorem sweep_eight_scores_bounded_witness :
    (Rectangular tenRowMatrix ∧ 9 < tenRowMatrix.length ∧ 2 ≤ nCols tenRowMatrix ∧
     (sampleCollab.pcaCore tenRowMatrix).length = tenRowMatrix.length ∧
     (∀ X i j, 0 ≤ sampleCollab.dist X i j) ∧
     (∀ k ∈ kValues, 1 < nLabels (sampleCollab.kmLabels RANDOM_STATE tenRowMatrix k) ∧
       nLabels (sampleCollab.kmLabels RANDOM_STATE tenRowMatrix k) < tenRowMatrix.length) ∧
     (∀ k ∈ kValues,
       1 < nLabels (sampleCollab.kmLabels RANDOM_STATE
          (sampleCollab.pcaCore tenRowMatrix) k) ∧
       nLabels (sampleCollab.kmLabels RANDOM_STATE (sampleCollab.pcaCore tenRowMatrix) k)
          < (sampleCollab.pcaCore tenRowMatrix).length)) ∧
    ∃ sm sp,
      pcaTransform sampleCollab.pcaCore tenRowMatrix
        = .ok (sampleCollab.pcaCore tenRowMatrix) ∧
      sweepBoth (fun k => (kmSilE sampleCollab tenRowMatrix k).map Prod.fst)
        (fun k => (kmSilE sampleCollab (sampleCollab.pcaCore tenRowMatrix) k).map Prod.fst)
        = .ok (sm, sp) ∧
      sm.length = 8 ∧ sp.length = 8 ∧
      (∀ s ∈ sm, -1 ≤ s ∧ s ≤ 1) ∧ (∀ s ∈ sp, -1 ≤ s ∧ s ≤ 1) := by
  refine ⟨⟨by unfold Rectangular; decide, by decide, by decide, by decide,
    fun X i j => le_refl 0, by decide, by decide⟩, ?_⟩
  exact sweep_eight_scores_bounded sampleCollab tenRowMatrix
    (by unfold Rectangular; decide) (by decide) (by decide) (by decide)
    (fun X i j => le_refl 0) (by decide) (by decide)

/-- C5: every error raised after argument parsing propagates uncaught: a
load failure, a PCA failure, or a sweep failure is the whole run's outcome
(no partial score reporting, no fallback k selection); and concretely, a
5-row matrix swept over k = 2..9 ends in a ClusteringError rather than a
truncated sweep. -/
theorem errors_propagate_uncaught :
    (∀ (c : CollabE) (p : String) (e : ProgError),
      loadVoteMatrix c.execMod p = .error e → runE c p = .error e) ∧
    (∀ (c : CollabE) (vm : Mat) (e : ProgError),
      pcaTransform c.pcaCore vm = .error e → analyze c vm = .error e) ∧
    (∀ (c : CollabE) (vm proj : Mat) (e : ProgError),
      pcaTransform c.pcaCore vm = .ok proj →
      sweepBoth (fun k => (kmSilE c vm k).map Prod.fst)
        (fun k => (kmSilE c proj k).map Prod.fst) = .error e →
      analyze c vm = .error e) ∧
    runE sampleCollab "matrix.py" = .error .clusteringError := by
  refine ⟨?_, ?_, ?_, rfl⟩
  · intro c p e h
    simp [runE, h]
  · intro c vm e h
    simp [analyze, h]
  · intro c vm proj e h1 h2
    simp [analyze, h1, h2]

/-- Witness for C5: a collaborator whose module execution fails makes the
whole run fail with that load error. -/
theorem errors_propagate_uncaught_witness :
    loadVoteMatrix failCollab.execMod "f.py" = .error .loadError ∧
    runE failCollab "f.py" = .error .loadError :=
  ⟨rfl, errors_propagate_uncaught.1 failCollab "f.py" .loadError rfl⟩

/-- The selector applied to a length-8 score list picks one of the swept k. -/
theorem selectOptimalK_mem {s : List ℚ} (h : s.length = 8) : selectOptimalK s ∈ kValues := by
  have hne : s ≠ [] := by
    intro hnil
    rw [hnil] at h
    cases h
  have hlt : npArgmax s < kValues.length := by
    have := npArgmax_lt_length hne
    rw [kValues_length]
    omega
  unfold selectOptimalK
  rw [List.getD_eq_getElem kValues 0 hlt]
  exact List.getElem_mem hlt

/-- C7: on any successful run, the final labels of each representation are
exactly the labels of the (deterministic, fixed-seed) k-means + silhouette
computation at the chosen k — and that chosen k is one of the swept values,
so the sweep performed this very computation: recomputing at the chosen k
instead of caching the sweep's model cannot change the assignment. -/
theorem final_rerun_matches_sweep (c : CollabE) (vm : Mat) (r : Report)
    (h : analyze c vm = .ok r) :
    ∃ proj,
      pcaTransform c.pcaCore vm = .ok proj ∧
      r.optimalKMatrix ∈ kValues ∧ r.optimalKPca ∈ kValues ∧
      (∃ s, kmSilE c vm r.optimalKMatrix = .ok (s, r.labelsMatrix)) ∧
      (∃ s, kmSilE c proj r.optimalKPca = .ok (s, r.labelsPca)) := by
  obtain ⟨proj, sm, sp, fm, fp, hpca, hsw, hfm, hfp, hr⟩ := analyze_ok_anatomy h
  obtain ⟨hl1, hl2⟩ := sweepAux_ok_lengths _ _ kValues [] [] sm sp
    (by simpa [sweepBoth] using hsw)
  simp [kValues_length] at hl1 hl2
  subst hr
  refine ⟨proj, hpca, selectOptimalK_mem hl1, selectOptimalK_mem hl2,
    ⟨fm.1, ?_⟩, ⟨fp.1, ?_⟩⟩
  · simpa using hfm
  · simpa using hfp

theorem meanQ_zero {l : List ℚ} (h : ∀ x ∈ l, x = 0) : meanQ l = 0 := by
  unfold meanQ
  rw [List.sum_eq_zero h, zero_div]

theorem minOrDefault_zero {l : List ℚ} (h : ∀ x ∈ l, x = 0) : minOrDefault l = 0 := by
  cases l with
  | nil => rfl
  | cons x xs =>
    show xs.foldl min x = 0
    have hx : x = 0 := h x (List.mem_cons_self x xs)
    subst hx
    induction xs with
    | nil => rfl
    | cons y ys ih =>
      have hy : y = 0 := h y (List.mem_cons_of_mem _ (List.mem_cons_self y ys))
      subst hy
      simp only [List.foldl_cons, min_self]
      exact ih (fun z hz => h z (by
        rcases List.mem_cons.mp hz with h' | h'
        · exact List.mem_cons_of_mem _ (h' ▸ List.mem_cons_self _ _)
        · exact List.mem_cons_of_mem _ (List.mem_cons_of_mem _ h')))

/-- With an all-zero distance function every silhouette score is 0. -/
theorem silhouetteScore_zero (labels : List Nat) :
    silhouetteScore (fun _ _ => (0 : ℚ)) labels = 0 := by
  have hA : ∀ i, silA (fun _ _ => (0 : ℚ)) labels i = 0 := by
    intro i
    refine meanQ_zero fun x hx => ?_
    rcases List.mem_map.mp hx with ⟨j, _, rfl⟩
    rfl
  have hB : ∀ i, silB (fun _ _ => (0 : ℚ)) labels i = 0 := by
    intro i
    refine minOrDefault_zero fun x hx => ?_
    rcases List.mem_map.mp hx with ⟨c, _, rfl⟩
    refine meanQ_zero fun y hy => ?_
    rcases List.mem_map.mp hy with ⟨j, _, rfl⟩
    rfl
  have hS : ∀ i, silhouetteSample (fun _ _ => (0 : ℚ)) labels i = 0 := by
    intro i
    unfold silhouetteSample
    split
    · rfl
    · rw [hA, hB]
      simp
  refine meanQ_zero fun x hx => ?_
  rcases List.mem_map.mp hx with ⟨i, _, rfl⟩
  exact hS i

/-- Witness for C7: the concrete successful run on the 10-row matrix; the
chosen k is 2 for both representations and the sweep's computation at k = 2
yields exactly the reported final labels. -/
theorem final_rerun_matches_sweep_witness :
    analyze sampleCollab tenRowMatrix = .ok sampleReport ∧
    ∃ proj,
      pcaTransform sampleCollab.pcaCore tenRowMatrix = .ok proj ∧
      sampleReport.optimalKMatrix ∈ kValues ∧ sampleReport.optimalKPca ∈ kValues ∧
      (∃ s, kmSilE sampleCollab tenRowMatrix sampleReport.optimalKMatrix
        = .ok (s, sampleReport.labelsMatrix)) ∧
      (∃ s, kmSilE sampleCollab proj sampleReport.optimalKPca
        = .ok (s, sampleReport.labelsPca)) := by
  have hstep : ∀ k, ¬ tenRowMatrix.length < k →
      1 < nLabels (sampleCollab.kmLabels RANDOM_STATE tenRowMatrix k) →
      nLabels (sampleCollab.kmLabels RANDOM_STATE tenRowMatrix k) < tenRowMatrix.length →
      ((kmSilE sampleCollab tenRowMatrix k).map Prod.fst) = .ok 0 := by
    intro k hn hl1 hl2
    rw [kmSilE_ok hn hl1 hl2]
    have hscore : silhouetteScore (sampleCollab.dist tenRowMatrix)
        (sampleCollab.kmLabels RANDOM_STATE tenRowMatrix k) = 0 :=
      silhouetteScore_zero _
    simp [Except.map, hscore]
  have e2 := hstep 2 (by decide) (by decide) (by decide)
  have e3 := hstep 3 (by decide) (by decide) (by decide)
  have e4 := hstep 4 (by decide) (by decide) (by decide)
  have e5 := hstep 5 (by decide) (by decide) (by decide)
  have e6 := hstep 6 (by decide) (by decide) (by decide)
  have e7 := hstep 7 (by decide) (by decide) (by decide)
  have e8 := hstep 8 (by decide) (by decide) (by decide)
  have e9 := hstep 9 (by decide) (by decide) (by decide)
  have ekv : kValues = [2, 3, 4, 5, 6, 7, 8, 9] := rfl
  have hsw : sweepBoth (fun k => (kmSilE sampleCollab tenRowMatrix k).map Prod.fst)
      (fun k => (kmSilE sampleCollab tenRowMatrix k).map Prod.fst)
      = .ok ([0, 0, 0, 0, 0, 0, 0, 0], [0, 0, 0, 0, 0, 0, 0, 0]) := by
    unfold sweepBoth
    rw [ekv]
    simp [sweepAux, e2, e3, e4, e5, e6, e7, e8, e9]
  have hsel : selectOptimalK [0, 0, 0, 0, 0, 0, 0, 0] = 2 := by decide
  have hk2 : kmSilE sampleCollab tenRowMatrix (selectOptimalK [0, 0, 0, 0, 0, 0, 0, 0])
      = .ok (0, [0, 1, 0, 1, 0, 1, 0, 1, 0, 1]) := by
    rw [hsel, kmSilE_ok (by decide) (by decide) (by decide)]
    have hscore : silhouetteScore (sampleCollab.dist tenRowMatrix)
        (sampleCollab.kmLabels RANDOM_STATE tenRowMatrix 2) = 0 :=
      silhouetteScore_zero _
    rw [hscore]
    rfl
  have hpca : pcaTransform sampleCollab.pcaCore tenRowMatrix = .ok tenRowMatrix := rfl
  have han : analyze sampleCollab tenRowMatrix = .ok sampleReport := by
    simp only [analyze, hpca, hsw, hk2]
    decide
  exact ⟨han, final_rerun_matches_sweep sampleCollab tenRowMatrix sampleReport han⟩

/-- Counterexample to C8: the spec says the Reducer must fail whenever the
input has fewer rows than columns + 1, but on the 2×2 matrix
`[[0, 0], [1, 1]]` (2 rows < 2 + 1 columns) the library precondition
`2 ≤ min(n_samples, n_features)` holds and the Reducer succeeds. -/
theorem pca_precondition_cex :
    (([[0, 0], [1, 1]] : Mat).length < nCols ([[0, 0], [1, 1]] : Mat) + 1) ∧
    pcaTransform id ([[0, 0], [1, 1]] : Mat) = .ok [[0, 0], [1, 1]] :=
  ⟨by decide, rfl⟩

/-- C8 (amended): the Reducer fails with a DimensionalityError exactly when
the input has fewer than 2 columns or fewer than 2 rows; otherwise it
returns a projection with exactly 2 columns and the input's row count, and
it is a deterministic function of the input. -/
theorem pca_precondition_amended (core : Mat → Mat) (X : Mat)
    (hcore : ∀ Y : Mat, 2 ≤ min Y.length (nCols Y) →
      (core Y).length = Y.length ∧ ∀ row ∈ core Y, row.length = 2) :
    ((∃ e, pcaTransform core X = .error e) ↔ (nCols X < 2 ∨ X.length < 2)) ∧
    (∀ P, pcaTransform core X = .ok P →
      P.length = X.length ∧ ∀ row ∈ P, row.length = 2) ∧
    (∀ Y, X = Y → pcaTransform core X = pcaTransform core Y) := by
  by_cases hcond : 2 ≤ min X.length (nCols X)
  · have hok : pcaTransform core X = .ok (core X) := by
      unfold pcaTransform
      rw [if_pos hcond]
    have hcond' := le_min_iff.mp hcond
    refine ⟨⟨?_, ?_⟩, ?_, fun Y h => by rw [h]⟩
    · rintro ⟨e, he⟩
      rw [hok] at he
      cases he
    · intro h
      omega
    · intro P hP
      rw [hok] at hP
      cases Except.ok.inj hP
      exact hcore X hcond
  · have herr : pcaTransform core X = .error .dimensionalityError := by
      unfold pcaTransform
      rw [if_neg hcond]
    push_neg at hcond
    have hcond' := min_lt_iff.mp hcond
    refine ⟨⟨fun _ => ?_, fun _ => ⟨_, herr⟩⟩, ?_, fun Y h => by rw [h]⟩
    · tauto
    · intro P hP
      rw [herr] at hP
      cases hP

/-- Witness for C8 (amended) at the 2×2 matrix `[[1, 2], [3, 4]]` with the
shape-respecting core `constTwoCore`. -/
theorem pca_precondition_amended_witness :
    (∀ Y : Mat, 2 ≤ min Y.length (nCols Y) →
      (constTwoCore Y).length = Y.length ∧ ∀ row ∈ constTwoCore Y, row.length = 2) ∧
    (((∃ e, pcaTransform constTwoCore [[1, 2], [3, 4]] = .error e) ↔
        (nCols [[1, 2], [3, 4]] < 2 ∨ ([[1, 2], [3, 4]] : Mat).length < 2)) ∧
     (∀ P, pcaTransform constTwoCore [[1, 2], [3, 4]] = .ok P →
        P.length = ([[1, 2], [3, 4]] : Mat).length ∧ ∀ row ∈ P, row.length = 2) ∧
     (∀ Y, ([[1, 2], [3, 4]] : Mat) = Y →
        pcaTransform constTwoCore [[1, 2], [3, 4]] = pcaTransform constTwoCore Y)) := by
  have hcore : ∀ Y : Mat, 2 ≤ min Y.length (nCols Y) →
      (constTwoCore Y).length = Y.length ∧ ∀ row ∈ constTwoCore Y, row.length = 2 := by
    intro Y _
    constructor
    · simp [constTwoCore]
    · intro row hrow
      rcases List.mem_map.mp hrow with ⟨_, _, rfl⟩
      rfl
  exact ⟨hcore, pca_precondition_amended constTwoCore [[1, 2], [3, 4]] hcore⟩

/-- Counterexample to C9: on the 2-column input `[(0,0), (2,2)]` no valid
PCA output equals the merely-centered matrix `[(-1,-1), (1,1)]`: the unit
direction `(3/5, 4/5)` captures squared component 98/25, more than the 2
captured by the first coordinate of the centered matrix, contradicting the
maximal-variance property of the first principal direction.  So the
Reducer's projection is not "identical to the original up to centering". -/
theorem pca_two_columns_cex :
    ¬ IsPCA2 [((0 : ℝ), (0 : ℝ)), (2, 2)] (center2 [((0 : ℝ), (0 : ℝ)), (2, 2)]) := by
  rintro ⟨a, b, c, d, -, -, -, -, hmax⟩
  have hunit : ((3 : ℝ) / 5) ^ 2 + ((4 : ℝ) / 5) ^ 2 = 1 := by norm_num
  have hle := hmax (3 / 5, 4 / 5) hunit
  have hc : center2 [((0 : ℝ), (0 : ℝ)), (2, 2)] = [(-1, -1), (1, 1)] := by
    unfold center2 mean1
    norm_num
  rw [hc] at hle
  unfold varAlong colSq1 at hle
  norm_num at hle

/-- C9 (amended): for every 2-column input, the Reducer's projection is the
original matrix up to centering and an orthonormal change of basis; in
particular every row keeps its squared norm (no information is lost). -/
theorem pca_two_columns_amended (X P : List (ℝ × ℝ)) (h : IsPCA2 X P) :
    ∃ a b c d : ℝ,
      (a ^ 2 + c ^ 2 = 1 ∧ b ^ 2 + d ^ 2 = 1 ∧ a * b + c * d = 0) ∧
      P = applyW a b c d (center2 X) ∧
      P.map (fun p => p.1 ^ 2 + p.2 ^ 2) = (center2 X).map (fun p => p.1 ^ 2 + p.2 ^ 2) := by
  obtain ⟨a, b, c, d, h1, h2, h3, hP, hmax⟩ := h
  obtain ⟨hr1, hr2, hr3⟩ := orthonormal_cols_rows h1 h2 h3
  refine ⟨a, b, c, d, ⟨h1, h2, h3⟩, hP, ?_⟩
  rw [hP]
  unfold applyW
  rw [List.map_map]
  have hfun : ((fun p : ℝ × ℝ => p.1 ^ 2 + p.2 ^ 2) ∘
      (fun p : ℝ × ℝ => (a * p.1 + c * p.2, b * p.1 + d * p.2)))
      = fun p : ℝ × ℝ => p.1 ^ 2 + p.2 ^ 2 := by
    funext p
    exact applyW_normSq hr1 hr2 hr3 p.1 p.2
  rw [hfun]

/-- Witness for C9 (amended) at the one-row input `[(0, 0)]`, whose PCA
output (with the identity basis) is `[(0, 0)]`. -/
theorem pca_two_columns_amended_witness :
    IsPCA2 [((0 : ℝ), (0 : ℝ))] [((0 : ℝ), (0 : ℝ))] ∧
    ∃ a b c d : ℝ,
      (a ^ 2 + c ^ 2 = 1 ∧ b ^ 2 + d ^ 2 = 1 ∧ a * b + c * d = 0) ∧
      ([((0 : ℝ), (0 : ℝ))] : List (ℝ × ℝ))
        = applyW a b c d (center2 [((0 : ℝ), (0 : ℝ))]) ∧
      ([((0 : ℝ), (0 : ℝ))] : List (ℝ × ℝ)).map (fun p => p.1 ^ 2 + p.2 ^ 2)
        = (center2 [((0 : ℝ), (0 : ℝ))]).map (fun p => p.1 ^ 2 + p.2 ^ 2) := by
  have hc : center2 [((0 : ℝ), (0 : ℝ))] = [(0, 0)] := by
    unfold center2 mean1
    norm_num
  have hyp : IsPCA2 [((0 : ℝ), (0 : ℝ))] [((0 : ℝ), (0 : ℝ))] := by
    refine ⟨1, 0, 0, 1, by norm_num, by norm_num, by norm_num, ?_, ?_⟩
    · rw [hc]
      unfold applyW
      norm_num
    · intro v hv
      rw [hc]
      unfold varAlong colSq1
      norm_num
  exact ⟨hyp, pca_two_columns_amended _ _ hyp⟩
